import Mathlib

/-!
# Verification of the cdict/hoshmap frozen identified dictionary

Shallow embedding of the core of the `davips/cdict` repository
(`src/hoshmap/frozenidict.py`, `src/hoshmap/value/lazyival.py` and the
historical `src/cdict` variant) together with proofs about the embedded
operations.

Modelling conventions:

* Python values are modelled by the inductive `PyVal`. Python `None` is the
  constructor `PyVal.none`; it doubles as the "unset" sentinel that
  `LazyiVal.__init__` stores into the shared results mapping, exactly as in
  the source.
* Python `dict`s are modelled as insertion-ordered association lists
  (`List (String × α)`) with `dictGet` (lookup), `dictSet`
  (`d[k] = v`: replace in place or append) and `dictUpdate`
  (`d.update(other)`).
* The identity primitive (the external `hosh` library) is out of the
  repository. Modelled from the spec: hoshes are combined with a
  commutative `+`, and the map identity folds `identity(value_k) * encode(k)`
  over entries. We model the combination as the free commutative monoid
  `Multiset (String × String)` whose atoms pair a value identity with the
  encoded key, `ø` being the empty multiset; `Hosh.id` is a string digest
  of the hosh (a function of the multiset alone, so equal hoshes give equal
  ids; concrete distinctness is obtained by evaluation where needed).
* Fallible Python code (raising) is modelled with `Except PyErr`.
-/

set_option autoImplicit false

namespace Cdict

/-! Python runtime values, as far as the embedded code inspects them:
`None`, numbers, strings, lists, tuples and string-keyed dicts (a mutual
family so that recursion over nested values stays structural). -/
mutual
/-- A Python value. -/
inductive PyVal where
  | none : PyVal
  | nat : Nat → PyVal
  | str : String → PyVal
  | list : PyList → PyVal
  | tuple : PyList → PyVal
  | dict : PyDict → PyVal

/-- The payload of a Python list or tuple. -/
inductive PyList where
  | nil : PyList
  | cons : PyVal → PyList → PyList

/-- The payload of a nested Python dict. -/
inductive PyDict where
  | dnil : PyDict
  | dcons : String → PyVal → PyDict → PyDict
end

/-- Unfold a modelled Python list/tuple payload into a Lean list. -/
def PyList.toList : PyList → List PyVal
  | .nil => []
  | .cons v t => v :: t.toList

/-- Build a modelled Python list/tuple payload from a Lean list. -/
def PyList.ofList : List PyVal → PyList
  | [] => .nil
  | v :: t => .cons v (PyList.ofList t)

/-- `len` of a modelled nested dict. -/
def PyDict.len : PyDict → Nat
  | .dnil => 0
  | .dcons _ _ t => 1 + t.len

/-- `.values()` of a modelled nested dict, in insertion order. -/
def PyDict.values : PyDict → List PyVal
  | .dnil => []
  | .dcons _ v t => v :: t.values

/-- `d[k]` on a modelled nested dict. -/
def pyDictGet (k : String) : PyDict → Option PyVal
  | .dnil => Option.none
  | .dcons k' v t => if k' = k then some v else pyDictGet k t

/-- Errors raised by the embedded code (`raise` sites in the source). -/
inductive PyErr where
  /-- `Cannot have a field named '_id'/'_ids'` (FrozenIdict.__init__). -/
  | reservedKey : PyErr
  /-- `Wrong result length: ... differs from ...` (LazyiVal.value). -/
  | arity : PyErr
  /-- `Unsupported multi-valued result type` (LazyiVal.value). -/
  | unsupported : PyErr
  /-- `TypeError: Cannot compare ...` (FrozenIdict.__eq__). -/
  | typeMismatch : PyErr
  /-- Python `KeyError` on a missing dict key. -/
  | keyError : PyErr
deriving DecidableEq, Repr

/-! ## Python dict model: insertion-ordered association lists -/

variable {α : Type}

/-- `d[k]` as an `Option`: first (unique, for dict-built lists) binding. -/
def dictGet (k : String) : List (String × α) → Option α
  | [] => Option.none
  | p :: l => if p.1 = k then some p.2 else dictGet k l

/-- `d[k] = v`: replace the binding in place if the key exists (Python dicts
keep the original insertion position), otherwise append. -/
def dictSet : List (String × α) → String → α → List (String × α)
  | [], k, v => [(k, v)]
  | p :: l, k, v => if p.1 = k then (k, v) :: l else p :: dictSet l k v

/-- `d.update(other)` / `for k, v in other.items(): d[k] = v`. -/
def dictUpdate (d other : List (String × α)) : List (String × α) :=
  other.foldl (fun acc p => dictSet acc p.1 p.2) d

@[simp] theorem dictGet_nil (k : String) : dictGet k ([] : List (String × α)) = Option.none := rfl

@[simp] theorem dictGet_cons (k : String) (p : String × α) (l : List (String × α)) :
    dictGet k (p :: l) = if p.1 = k then some p.2 else dictGet k l := rfl

@[simp] theorem dictSet_nil (k : String) (v : α) : dictSet ([] : List (String × α)) k v = [(k, v)] := rfl

@[simp] theorem dictSet_cons (p : String × α) (l : List (String × α)) (k : String) (v : α) :
    dictSet (p :: l) k v = if p.1 = k then (k, v) :: l else p :: dictSet l k v := rfl

theorem dictGet_dictSet_self (l : List (String × α)) (k : String) (v : α) :
    dictGet k (dictSet l k v) = some v := by
  induction l with
  | nil => simp
  | cons p l ih =>
    by_cases h : p.1 = k <;> simp [h, ih]

theorem dictGet_dictSet_ne (l : List (String × α)) (k k' : String) (v : α) (h : k' ≠ k) :
    dictGet k (dictSet l k' v) = dictGet k l := by
  induction l with
  | nil => simp [h]
  | cons p l ih =>
    by_cases hp : p.1 = k' <;> by_cases hk : p.1 = k <;>
      simp_all [dictSet, dictGet]

theorem dictSet_fresh (l : List (String × α)) (k : String) (v : α)
    (h : k ∉ l.map Prod.fst) : dictSet l k v = l ++ [(k, v)] := by
  induction l with
  | nil => simp
  | cons p l ih =>
    simp only [List.map_cons, List.mem_cons] at h
    push_neg at h
    simp [Ne.symm h.1, ih h.2]

theorem keys_dictSet_of_mem (l : List (String × α)) (k : String) (v : α)
    (h : k ∈ l.map Prod.fst) : (dictSet l k v).map Prod.fst = l.map Prod.fst := by
  induction l with
  | nil => simp at h
  | cons p l ih =>
    simp only [List.map_cons, List.mem_cons] at h
    by_cases hp : p.1 = k
    · simp [hp]
    · rcases h with h | h
      · exact absurd h.symm hp
      · simp [hp, ih h]

/-- Folding `d[k] = v` over a list of pairs with fresh, duplicate-free keys
just appends the pairs. -/
theorem foldl_dictSet_eq_append (l acc : List (String × α))
    (hnd : (l.map Prod.fst).Nodup) (hdisj : ∀ k ∈ l.map Prod.fst, k ∉ acc.map Prod.fst) :
    l.foldl (fun acc p => dictSet acc p.1 p.2) acc = acc ++ l := by
  induction l generalizing acc with
  | nil => simp
  | cons p l ih =>
    simp only [List.foldl_cons]
    rw [dictSet_fresh acc p.1 p.2 (hdisj p.1 (by simp))]
    rw [ih (acc ++ [(p.1, p.2)])]
    · simp
    · exact (List.nodup_cons.mp hnd).2
    · intro k hk
      simp only [List.map_append, List.mem_append, List.map_cons, List.map_nil,
        List.mem_singleton, not_or]
      constructor
      · exact hdisj k (by simp [hk])
      · intro he
        subst he
        exact absurd hk (List.nodup_cons.mp hnd).1


theorem dictUpdate_nil_of_nodup (l : List (String × α)) (hnd : (l.map Prod.fst).Nodup) :
    dictUpdate [] l = l := by
  simpa using foldl_dictSet_eq_append l [] hnd (by simp)

/-- Lookup is permutation-invariant on duplicate-free association lists. -/
theorem dictGet_perm (l₁ l₂ : List (String × α)) (p : l₁.Perm l₂)
    (hnd : (l₁.map Prod.fst).Nodup) (k : String) : dictGet k l₁ = dictGet k l₂ := by
  induction p with
  | nil => rfl
  | cons x p ih =>
    simp only [List.map_cons, List.nodup_cons] at hnd
    simp [ih hnd.2]
  | swap x y l =>
    simp only [List.map_cons, List.nodup_cons, List.mem_cons] at hnd
    have hxy : y.1 ≠ x.1 := fun he => hnd.1 (Or.inl he)
    by_cases hy : y.1 = k <;> by_cases hx : x.1 = k
    · exact absurd (hy.trans hx.symm) hxy
    · simp [hy, hx]
    · simp [hy, hx]
    · simp [hy, hx]
  | trans p₁ p₂ ih₁ ih₂ =>
    rw [ih₁ hnd, ih₂ ((p₁.map Prod.fst).nodup_iff.mp hnd)]

theorem dictGet_eq_some_of_mem (l : List (String × α)) (k : String) (v : α)
    (hnd : (l.map Prod.fst).Nodup) (hm : (k, v) ∈ l) : dictGet k l = some v := by
  induction l with
  | nil => simp at hm
  | cons p l ih =>
    simp only [List.map_cons, List.nodup_cons] at hnd
    rcases List.mem_cons.mp hm with h | h
    · simp [← h]
    · have hk : p.1 ≠ k := by
        intro he
        exact hnd.1 (he ▸ (List.mem_map_of_mem Prod.fst h))
      simp [hk, ih hnd.2 h]

theorem mem_of_dictGet_eq_some (l : List (String × α)) (k : String) (v : α)
    (h : dictGet k l = some v) : (k, v) ∈ l := by
  induction l with
  | nil => simp at h
  | cons p l ih =>
    by_cases hp : p.1 = k
    · simp only [dictGet_cons, hp, if_pos] at h
      obtain ⟨rfl⟩ := h
      obtain ⟨p1, p2⟩ := p
      simp_all
    · simp only [dictGet_cons, hp, if_neg, if_false] at h
      exact List.mem_cons_of_mem _ (ih h)

theorem dictGet_isSome_iff_mem_keys (l : List (String × α)) (k : String) :
    (dictGet k l).isSome = true ↔ k ∈ l.map Prod.fst := by
  induction l with
  | nil => simp
  | cons p l ih =>
    by_cases hp : p.1 = k
    · simp [hp]
    · simp only [dictGet_cons, hp, if_false, List.map_cons, List.mem_cons, ih]
      exact ⟨Or.inr, fun h => h.elim (fun he => absurd he.symm hp) id⟩

/-! ## The identity primitive

The `hosh` library is an external collaborator (spec §1: "the
structural-identity primitive itself ... is treated as a supplied
primitive"). Modelled from the spec: the commutative combination `+` used by
`FrozenIdict.__init__` (`self.hosh += self.data[k].hosh * k.encode()`) is the
free commutative monoid `Multiset (String × String)`; an atom pairs the
identity string of an entry's value with the encoded key, so
`h * k.encode()` becomes the singleton `{(h.id, k)}` and the neutral element
`ø` the empty multiset. `Hosh.id` is an injective string rendering of a
hosh, modelled by sorting the atoms canonically. -/
abbrev MapHosh := Multiset (String × String)

/-- Injective numeric encoding of a string (base large enough for every
`Char`), used to build the digest behind an identity string. -/
def strCode (s : String) : Nat :=
  s.data.foldl (fun a c => a * 2097152 + (c.toNat + 1)) 0

/-- Numeric code of one atom of a map hosh. -/
def atomCode (p : String × String) : Nat := Nat.pair (strCode p.1) (strCode p.2)

/-- `hosh.id` of a map identity: a commutative digest of the atoms rendered
as a string. The real id is an opaque cryptographic string; only its
functionality (equal hoshes give equal ids) is relied upon, and concrete
distinctness is checked by evaluation where a proof needs it. -/
def mhoshId (m : MapHosh) : String :=
  "h" ++ toString ((m.map atomCode).sum)

/-! `Hosh(pickle.dumps(v, protocol=5)).id`, the identity of a strict value
(`StrictiVal.__init__`): an opaque digest of the value's content, modelled
by a structural encoding of the content. -/
mutual
/-- Digest of a value. -/
def pickleId : PyVal → String
  | .none => "N;"
  | .nat n => "i" ++ toString n ++ ";"
  | .str s => "s" ++ s ++ ";"
  | .list l => "l(" ++ pickleIdList l ++ ")"
  | .tuple l => "t(" ++ pickleIdList l ++ ")"
  | .dict d => "d(" ++ pickleIdDict d ++ ")"

/-- Digest of a list payload. -/
def pickleIdList : PyList → String
  | .nil => ""
  | .cons v t => pickleId v ++ pickleIdList t

/-- Digest of a dict payload. -/
def pickleIdDict : PyDict → String
  | .dnil => ""
  | .dcons k v t => k ++ ":" ++ pickleId v ++ pickleIdDict t
end

/-! Python structural equality `==` between modelled values (used by
`FrozenIdict.__eq__` when comparing contents). Dicts compare as unordered
key→value mappings, as in Python. -/
mutual
/-- `a == b` between values. -/
def pyEq : PyVal → PyVal → Bool
  | .none, .none => true
  | .nat a, .nat b => a == b
  | .str a, .str b => a == b
  | .list a, .list b => pyEqList a b
  | .tuple a, .tuple b => pyEqList a b
  | .dict a, .dict b => a.len == b.len && pyEqDictEntries a b
  | _, _ => false

/-- `==` between list payloads: lengths and elements. -/
def pyEqList : PyList → PyList → Bool
  | .nil, .nil => true
  | .cons a as, .cons b bs => pyEq a b && pyEqList as bs
  | _, _ => false

/-- Every entry of the first dict matches in the second. -/
def pyEqDictEntries : PyDict → PyDict → Bool
  | .dnil, _ => true
  | .dcons k v t, b =>
      (match pyDictGet k b with
       | some w => pyEq v w
       | Option.none => false) && pyEqDictEntries t b
end

/-! ## Strict values and Frozen Map construction

`src/hoshmap/frozenidict.py`, `FrozenIdict.__init__`. Entries already
holding an `iVal` are kept; other values are wrapped with `StrictiVal(v)`
(identity = hash of the pickled content). The branches for nested `Idict`
values and pandas `DataFrame` values are outside the model, as are non-`str`
keys (the `isinstance(k, str)` guard is identically true here). -/

/-- `StrictiVal`: an already-computed value together with its identity
(`src/cdict/value/strictival.py`; the hoshmap variant of `strictival.py` is
not under `src/`, its construction is identical per the cdict file and the
spec's "Strict: owns content, identity = structural hash of content"). -/
structure SVal where
  value : PyVal
  hoshId : String

/-- Wrap a plain value as a strict value, `StrictiVal(v)`. -/
def strictiVal (v : PyVal) : SVal := ⟨v, pickleId v⟩

/-- A raw constructor argument for `FrozenIdict.__init__`: either an
existing `iVal` (kept as is) or a plain value (wrapped). -/
inductive Entry where
  | ival (sv : SVal)
  | raw (v : PyVal)

/-- `self.data[k] = v if isinstance(v, iVal) else StrictiVal(v)`. -/
def wrapEntry : Entry → SVal
  | .ival sv => sv
  | .raw v => strictiVal v

/-- The frozen identified dictionary. `data` holds the real entries; the
synthetic `"_id"`/`"_ids"` entries appended by `__init__` are the `hosh`
and `ids` fields. -/
structure Frozen where
  data : List (String × SVal)
  hosh : MapHosh
  ids : List (String × String)

/-- The map's `_id` string (`self.id = self.hosh.id`). -/
def Frozen.idStr (f : Frozen) : String := mhoshId f.hosh

/-- `k.startswith("_")`: the key begins with the metadata prefix character
(the prefix being the single character `_`, this is a test on the first
character). -/
def startsWithUnderscore (k : String) : Bool :=
  match k.data with
  | [] => false
  | c :: _ => c == '_'

/-- `'_id' in data.keys() or '_ids' in data.keys()`. -/
def hasReservedKey (entries : List (String × Entry)) : Bool :=
  entries.any fun p => p.1 == "_id" || p.1 == "_ids"

/-- Body of one iteration of the `for k, v in data.items()` loop of
`FrozenIdict.__init__` (hoshmap variant), after the value has been wrapped
(`sv = self.data[k]`), additionally counting how many hosh combinations
(`self.hosh += self.data[k].hosh * k.encode()`) have been performed. Keys
starting with `_` other than `_id`/`_ids` (metafields) skip the
combination; `self.ids[k]` is assigned for every key. -/
def frozenStepW (st : Frozen × Nat) (q : String × SVal) : Frozen × Nat :=
  let fz := st.1
  let data' := dictSet fz.data q.1 q.2
  let ids' := dictSet fz.ids q.1 q.2.hoshId
  if startsWithUnderscore q.1 && !(q.1 == "_id") && !(q.1 == "_ids") then
    (⟨data', fz.hosh, ids'⟩, st.2)
  else
    (⟨data', fz.hosh + {(q.2.hoshId, q.1)}, ids'⟩, st.2 + 1)

/-- One iteration of the entry loop: wrap the value
(`self.data[k] = v if isinstance(v, iVal) else StrictiVal(v)`), then the
loop body. -/
def frozenStep (st : Frozen × Nat) (p : String × Entry) : Frozen × Nat :=
  frozenStepW st (p.1, wrapEntry p.2)

/-- `FrozenIdict.__init__` of the hoshmap variant, instrumented with the
number of hosh combinations performed: the reserved-key check is executed
before the entry loop, so a reserved key raises before any combination. -/
def frozenInitInstr (entries : List (String × Entry)) : Except PyErr Frozen × Nat :=
  if hasReservedKey entries then (.error .reservedKey, 0)
  else
    let res := entries.foldl frozenStep (⟨[], 0, []⟩, 0)
    (.ok res.1, res.2)

/-- `FrozenIdict(entries)` (hoshmap variant). -/
def frozenInit (entries : List (String × Entry)) : Except PyErr Frozen :=
  (frozenInitInstr entries).1

/-- One iteration of the entry loop of the historical cdict variant
(`src/cdict/frozenidict.py`): every key contributes
`self.hosh += self.data[k].hosh * k.encode()`, with no metafield exception. -/
def cdictFrozenStep (st : Frozen) (p : String × Entry) : Frozen :=
  let sv := wrapEntry p.2
  ⟨dictSet st.data p.1 sv, st.hosh + {(sv.hoshId, p.1)}, dictSet st.ids p.1 sv.hoshId⟩

/-- `FrozenIdict(entries)` of the historical cdict variant. -/
def cdictFrozenInit (entries : List (String × Entry)) : Except PyErr Frozen :=
  if hasReservedKey entries then .error .reservedKey
  else .ok (entries.foldl cdictFrozenStep ⟨[], 0, []⟩)

/-- `_id` of a construction result, when it succeeded. -/
def initIdStr (r : Except PyErr Frozen) : Option String :=
  match r with
  | .ok f => some f.idStr
  | .error _ => Option.none

/-! ### Characterization of the construction fold -/

/-- The hosh contribution of one entry of the hoshmap construction loop:
nothing for metafields, `identity(value) * encode(key)` otherwise. -/
def entryContrib (p : String × Entry) : MapHosh :=
  if startsWithUnderscore p.1 && !(p.1 == "_id") && !(p.1 == "_ids") then 0
  else {((wrapEntry p.2).hoshId, p.1)}

theorem frozenStep_data (st : Frozen × Nat) (p : String × Entry) :
    (frozenStep st p).1.data = dictSet st.1.data p.1 (wrapEntry p.2) := by
  cases hc : startsWithUnderscore p.1 && !(p.1 == "_id") && !(p.1 == "_ids") <;>
    simp [frozenStep, frozenStepW, hc]

theorem frozenStep_ids (st : Frozen × Nat) (p : String × Entry) :
    (frozenStep st p).1.ids = dictSet st.1.ids p.1 (wrapEntry p.2).hoshId := by
  cases hc : startsWithUnderscore p.1 && !(p.1 == "_id") && !(p.1 == "_ids") <;>
    simp [frozenStep, frozenStepW, hc]

theorem frozenStep_hosh (st : Frozen × Nat) (p : String × Entry) :
    (frozenStep st p).1.hosh = st.1.hosh + entryContrib p := by
  cases hc : startsWithUnderscore p.1 && !(p.1 == "_id") && !(p.1 == "_ids") <;>
    simp [frozenStep, frozenStepW, entryContrib, hc]

theorem foldl_frozenStep_data (e : List (String × Entry)) (st : Frozen × Nat) :
    (e.foldl frozenStep st).1.data
      = (e.map fun p => (p.1, wrapEntry p.2)).foldl (fun d q => dictSet d q.1 q.2) st.1.data := by
  induction e generalizing st with
  | nil => rfl
  | cons p e ih =>
    rw [List.foldl_cons, ih, frozenStep_data, List.map_cons, List.foldl_cons]

theorem foldl_frozenStep_ids (e : List (String × Entry)) (st : Frozen × Nat) :
    (e.foldl frozenStep st).1.ids
      = (e.map fun p => (p.1, (wrapEntry p.2).hoshId)).foldl
          (fun d q => dictSet d q.1 q.2) st.1.ids := by
  induction e generalizing st with
  | nil => rfl
  | cons p e ih =>
    rw [List.foldl_cons, ih, frozenStep_ids, List.map_cons, List.foldl_cons]

theorem foldl_frozenStep_hosh (e : List (String × Entry)) (st : Frozen × Nat) :
    (e.foldl frozenStep st).1.hosh = st.1.hosh + (e.map entryContrib).sum := by
  induction e generalizing st with
  | nil => simp
  | cons p e ih =>
    rw [List.foldl_cons, ih, frozenStep_hosh, List.map_cons, List.sum_cons, add_assoc]

/-- A successful construction, described entrywise: wrapped data, summed
hosh contributions and per-entry identities, in insertion order. -/
theorem frozenInit_ok_eq (e : List (String × Entry))
    (hnr : hasReservedKey e = false) (hnd : (e.map Prod.fst).Nodup) :
    frozenInit e = .ok ⟨e.map (fun p => (p.1, wrapEntry p.2)), (e.map entryContrib).sum,
      e.map fun p => (p.1, (wrapEntry p.2).hoshId)⟩ := by
  unfold frozenInit frozenInitInstr
  rw [hnr]
  simp only [Bool.false_eq_true, if_false, Except.ok.injEq]
  have hkeys₁ : ((e.map fun p => (p.1, wrapEntry p.2)).map Prod.fst).Nodup := by
    rw [List.map_map]; exact hnd
  have hkeys₂ : ((e.map fun p => (p.1, (wrapEntry p.2).hoshId)).map Prod.fst).Nodup := by
    rw [List.map_map]; exact hnd
  refine Frozen.mk.injEq .. ▸ ?_
  refine ⟨?_, ?_, ?_⟩
  · rw [foldl_frozenStep_data]
    simpa using foldl_dictSet_eq_append (e.map fun p => (p.1, wrapEntry p.2)) [] hkeys₁ (by simp)
  · rw [foldl_frozenStep_hosh]; simp
  · rw [foldl_frozenStep_ids]
    simpa using foldl_dictSet_eq_append (e.map fun p => (p.1, (wrapEntry p.2).hoshId)) []
      hkeys₂ (by simp)

theorem hasReservedKey_eq_false_iff (e : List (String × Entry)) :
    hasReservedKey e = false ↔ ∀ p ∈ e, p.1 ≠ "_id" ∧ p.1 ≠ "_ids" := by
  unfold hasReservedKey
  rw [List.any_eq_false]
  constructor
  · intro h p hp
    have := h p hp
    simp only [Bool.or_eq_true, beq_iff_eq, not_or] at this
    exact this
  · intro h p hp
    simp only [Bool.or_eq_true, beq_iff_eq, not_or]
    exact h p hp

/-- **C1.** Constructing a Frozen Map from the same set of `{key, content}`
pairs in any insertion order yields the same `_id` (the fold of
`identity(value_k) * encode(k)` is order-independent) and the same
`_ids[k]` for every key `k`. -/
theorem frozen_construction_order_independent (e₁ e₂ : List (String × Entry))
    (hp : e₁.Perm e₂) (hnd : (e₁.map Prod.fst).Nodup) (hnr : hasReservedKey e₁ = false) :
    ∃ f₁ f₂, frozenInit e₁ = .ok f₁ ∧ frozenInit e₂ = .ok f₂ ∧
      f₁.idStr = f₂.idStr ∧ f₁.hosh = f₂.hosh ∧
      ∀ k, dictGet k f₁.ids = dictGet k f₂.ids := by
  have hnd₂ : (e₂.map Prod.fst).Nodup := ((hp.map Prod.fst).nodup_iff).mp hnd
  have hnr₂ : hasReservedKey e₂ = false := by
    rw [hasReservedKey_eq_false_iff] at hnr ⊢
    exact fun p hp2 => hnr p (hp.symm.subset hp2)
  have hhosh : (e₁.map entryContrib).sum = (e₂.map entryContrib).sum :=
    (hp.map entryContrib).sum_eq
  refine ⟨_, _, frozenInit_ok_eq e₁ hnr hnd, frozenInit_ok_eq e₂ hnr₂ hnd₂, ?_, ?_, ?_⟩
  · show mhoshId (e₁.map entryContrib).sum = mhoshId (e₂.map entryContrib).sum
    rw [hhosh]
  · exact hhosh
  · intro k
    refine dictGet_perm _ _ (hp.map fun p => (p.1, (wrapEntry p.2).hoshId)) ?_ k
    rw [List.map_map]
    exact hnd

/-- Witness for C1: `{a: 1, b: 2}` built in either insertion order. -/
theorem frozen_construction_order_independent_witness :
    ∃ f₁ f₂,
      frozenInit [("a", .raw (.nat 1)), ("b", .raw (.nat 2))] = .ok f₁ ∧
      frozenInit [("b", .raw (.nat 2)), ("a", .raw (.nat 1))] = .ok f₂ ∧
      f₁.idStr = f₂.idStr ∧ f₁.hosh = f₂.hosh ∧
      ∀ k, dictGet k f₁.ids = dictGet k f₂.ids :=
  frozen_construction_order_independent
    [("a", .raw (.nat 1)), ("b", .raw (.nat 2))]
    [("b", .raw (.nat 2)), ("a", .raw (.nat 1))]
    (List.Perm.swap _ _ _) (by decide) (by decide)

/-- **C4 (amended).** In the hoshmap `FrozenIdict`, the map identity is the
combination of `identity(value_k) * encode(k)` over exactly the keys that do
not start with the metadata prefix `_`; metafield entries contribute
nothing. (The historical cdict variant instead folds every key, including
metafields — see the counterexample.) -/
theorem frozen_id_ignores_metafields (e : List (String × Entry))
    (hnr : hasReservedKey e = false) :
    ∃ f, frozenInit e = .ok f ∧
      f.hosh = ((e.filter fun p => !startsWithUnderscore p.1).map
        (fun p => ({((wrapEntry p.2).hoshId, p.1)} : MapHosh))).sum := by
  rw [hasReservedKey_eq_false_iff] at hnr
  refine ⟨(e.foldl frozenStep ((⟨[], 0, []⟩ : Frozen), 0)).1, ?_, ?_⟩
  · unfold frozenInit frozenInitInstr
    rw [(hasReservedKey_eq_false_iff e).mpr hnr]
    simp
  · rw [foldl_frozenStep_hosh]
    simp only [zero_add]
    induction e with
    | nil => simp
    | cons p e ih =>
      have hp := hnr p (by simp)
      have he : ∀ q ∈ e, q.1 ≠ "_id" ∧ q.1 ≠ "_ids" := fun q hq => hnr q (by simp [hq])
      cases hc : startsWithUnderscore p.1 with
      | true =>
        have : entryContrib p = 0 := by
          simp [entryContrib, hc, hp.1, hp.2]
        simp [this, List.filter_cons, hc, ih he]
      | false =>
        have : entryContrib p = {((wrapEntry p.2).hoshId, p.1)} := by
          simp [entryContrib, hc]
        simp [this, List.filter_cons, hc, ih he]

/-- Witness for C4's amended theorem: `{x: 1, _m: 2}` — only `x`
contributes to the identity. -/
theorem frozen_id_ignores_metafields_witness :
    ∃ f, frozenInit [("x", .raw (.nat 1)), ("_m", .raw (.nat 2))] = .ok f ∧
      f.hosh = (([("x", Entry.raw (.nat 1)), ("_m", Entry.raw (.nat 2))].filter
          fun p => !startsWithUnderscore p.1).map
        (fun p => ({((wrapEntry p.2).hoshId, p.1)} : MapHosh))).sum :=
  frozen_id_ignores_metafields [("x", .raw (.nat 1)), ("_m", .raw (.nat 2))] (by decide)

/-- **C4 counterexample.** In the historical cdict variant
(`src/cdict/frozenidict.py`), the metafield `_m` does change `_id`: the
constructions of `{x: 1, _m: 2}` and `{x: 1}` both succeed but produce
different identities, refuting "metafield entries contribute nothing to the
map's `_id`" for every Frozen Map construction of the repository. -/
theorem cdict_metafield_changes_id :
    initIdStr (cdictFrozenInit [("x", .raw (.nat 1)), ("_m", .raw (.nat 2))])
        ≠ initIdStr (cdictFrozenInit [("x", .raw (.nat 1))]) ∧
      (initIdStr (cdictFrozenInit [("x", .raw (.nat 1)), ("_m", .raw (.nat 2))])).isSome
        = true ∧
      (initIdStr (cdictFrozenInit [("x", .raw (.nat 1))])).isSome = true := by
  refine ⟨by decide, by decide, by decide⟩

/-- **C6.** Supplying `_id` or `_ids` at construction fails with the
reserved-key error, and the failure happens before any identity is
computed: the instrumented constructor performs zero hosh combinations. -/
theorem reserved_key_rejected_before_identity (e : List (String × Entry))
    (h : "_id" ∈ e.map Prod.fst ∨ "_ids" ∈ e.map Prod.fst) :
    frozenInit e = .error .reservedKey ∧ (frozenInitInstr e).2 = 0 := by
  have hr : hasReservedKey e = true := by
    unfold hasReservedKey
    rw [List.any_eq_true]
    rcases h with h | h <;> obtain ⟨p, hp, he⟩ := List.mem_map.mp h
    · exact ⟨p, hp, by simp [he]⟩
    · exact ⟨p, hp, by simp [he]⟩
  constructor <;> simp [frozenInit, frozenInitInstr, hr]

/-- Witness for C6: `{x: 1, _id: "z"}` is rejected with no combination
performed. -/
theorem reserved_key_rejected_before_identity_witness :
    frozenInit [("x", .raw (.nat 1)), ("_id", .raw (.str "z"))] = .error .reservedKey ∧
      (frozenInitInstr [("x", .raw (.nat 1)), ("_id", .raw (.str "z"))]).2 = 0 :=
  reserved_key_rejected_before_identity
    [("x", .raw (.nat 1)), ("_id", .raw (.str "z"))] (by decide)

/-! ## Merging (`FrozenIdict.__rshift__`, map-like right operands) -/

/-- Map-like right operands of `__rshift__`: a plain dict, or another
`FrozenIdict` (which the code converts to its `.data` dict — including the
synthetic `"_id"`/`"_ids"` entries — before the entry-copy loop). The
`tuple`/`Let` (bind) and `list` (cache attach) branches are distinct
operations outside the merge claim; the `Idict` branch dereferences
`self.frozen`, which does not exist on `FrozenIdict`. -/
inductive MergeOperand where
  | dict (d : List (String × PyVal))
  | fmap (g : Frozen)

/-- The synthetic `"_ids"` entry value of a `FrozenIdict`, as a Python
value. -/
def pyDictOfIds : List (String × String) → PyDict
  | [] => .dnil
  | p :: t => .dcons p.1 (.str p.2) (pyDictOfIds t)

/-- `FrozenIdict.__rshift__` for map-like right operands
(`src/hoshmap/frozenidict.py`): copy `self.data` minus the synthetic
`_id`/`_ids` entries (`fz.data` already excludes them), turn a
`FrozenIdict` operand into its `.data` dict — whose last two entries are
its own `"_id"` (id string) and `"_ids"` (dict of id strings) — then run
`for k, v in other.items(): data[k] = v` and rebuild with
`FrozenIdict(data)`. -/
def rshiftMerge (fz : Frozen) (other : MergeOperand) : Except PyErr Frozen :=
  let base : List (String × Entry) := fz.data.map fun p => (p.1, Entry.ival p.2)
  match other with
  | .dict d => frozenInit (dictUpdate base (d.map fun p => (p.1, Entry.raw p.2)))
  | .fmap g =>
      let od : List (String × Entry) :=
        (g.data.map fun p => (p.1, Entry.ival p.2))
          ++ [("_id", Entry.raw (.str g.idStr)),
              ("_ids", Entry.raw (.dict (pyDictOfIds g.ids)))]
      frozenInit (dictUpdate base od)

theorem map_snd_dictSet {β γ : Type} (g : β → γ) (l : List (String × β)) (k : String) (v : β) :
    (dictSet l k v).map (fun p => (p.1, g p.2))
      = dictSet (l.map fun p => (p.1, g p.2)) k (g v) := by
  induction l with
  | nil => rfl
  | cons p l ih =>
    by_cases hp : p.1 = k <;> simp [hp, ih]

theorem map_snd_dictUpdate {β γ : Type} (g : β → γ) (a b : List (String × β)) :
    (dictUpdate a b).map (fun p => (p.1, g p.2))
      = dictUpdate (a.map fun p => (p.1, g p.2)) (b.map fun p => (p.1, g p.2)) := by
  induction b generalizing a with
  | nil => rfl
  | cons p b ih =>
    show (dictUpdate (dictSet a p.1 p.2) b).map _ = dictUpdate (dictSet _ p.1 (g p.2)) _
    rw [ih, map_snd_dictSet]

theorem dictGet_map_snd {β γ : Type} (g : β → γ) (l : List (String × β)) (k : String) :
    dictGet k (l.map fun p => (p.1, g p.2)) = (dictGet k l).map g := by
  induction l with
  | nil => rfl
  | cons p l ih =>
    by_cases hp : p.1 = k <;> simp [hp, ih]

theorem mem_keys_dictSet (l : List (String × α)) (k k' : String) (v : α) :
    k ∈ (dictSet l k' v).map Prod.fst ↔ k ∈ l.map Prod.fst ∨ k = k' := by
  induction l with
  | nil => simp [eq_comm]
  | cons p l ih =>
    by_cases hp : p.1 = k'
    · rw [dictSet_cons, if_pos hp]
      simp only [List.map_cons, List.mem_cons, ← hp]
      tauto
    · rw [dictSet_cons, if_neg hp]
      simp only [List.map_cons, List.mem_cons, ih]
      tauto

theorem mem_keys_dictUpdate (a b : List (String × α)) (k : String) :
    k ∈ (dictUpdate a b).map Prod.fst ↔ k ∈ a.map Prod.fst ∨ k ∈ b.map Prod.fst := by
  induction b generalizing a with
  | nil => simp [dictUpdate]
  | cons p b ih =>
    show k ∈ (dictUpdate (dictSet a p.1 p.2) b).map Prod.fst ↔ _
    rw [ih, mem_keys_dictSet]
    simp only [List.map_cons, List.mem_cons]
    tauto

theorem nodup_keys_dictSet (l : List (String × α)) (k : String) (v : α)
    (hnd : (l.map Prod.fst).Nodup) : ((dictSet l k v).map Prod.fst).Nodup := by
  by_cases h : k ∈ l.map Prod.fst
  · rw [keys_dictSet_of_mem l k v h]; exact hnd
  · rw [dictSet_fresh l k v h]
    simp only [List.map_append, List.map_cons, List.map_nil]
    rw [List.nodup_append]
    exact ⟨hnd, List.nodup_singleton k, by simpa using fun hk => h hk⟩

theorem nodup_keys_dictUpdate (a b : List (String × α))
    (hnd : (a.map Prod.fst).Nodup) : ((dictUpdate a b).map Prod.fst).Nodup := by
  induction b generalizing a with
  | nil => exact hnd
  | cons p b ih =>
    exact ih (dictSet a p.1 p.2) (nodup_keys_dictSet a p.1 p.2 hnd)

theorem dictGet_eq_none_of_not_mem (l : List (String × α)) (k : String)
    (h : k ∉ l.map Prod.fst) : dictGet k l = Option.none := by
  cases hg : dictGet k l with
  | none => rfl
  | some v =>
    exact absurd ((dictGet_isSome_iff_mem_keys l k).mp (by simp [hg])) h

theorem dictGet_dictUpdate_of_nodup (a b : List (String × α)) (k : String)
    (hnd : (b.map Prod.fst).Nodup) :
    dictGet k (dictUpdate a b)
      = match dictGet k b with
        | some v => some v
        | Option.none => dictGet k a := by
  induction b generalizing a with
  | nil => rfl
  | cons p b ih =>
    simp only [List.map_cons, List.nodup_cons] at hnd
    show dictGet k (dictUpdate (dictSet a p.1 p.2) b) = _
    rw [ih _ hnd.2]
    by_cases hp : p.1 = k
    · subst hp
      rw [dictGet_eq_none_of_not_mem b p.1 hnd.1]
      simp [dictGet_dictSet_self]
    · simp only [dictGet_cons, hp, if_false]
      cases dictGet k b with
      | none => simp [dictGet_dictSet_ne a k p.1 p.2 hp]
      | some v => rfl

/-- `frozenInit` only looks at keys and wrapped values: two entry lists that
agree keywise and after `wrapEntry` construct the same map. -/
theorem frozenInit_congr_wrap (l₁ l₂ : List (String × Entry))
    (h : l₁.map (fun p => (p.1, wrapEntry p.2)) = l₂.map (fun p => (p.1, wrapEntry p.2))) :
    frozenInit l₁ = frozenInit l₂ := by
  have hk : l₁.map Prod.fst = l₂.map Prod.fst := by
    have := congrArg (List.map Prod.fst) h
    simpa [List.map_map, Function.comp] using this
  have hres : hasReservedKey l₁ = hasReservedKey l₂ := by
    unfold hasReservedKey
    have h1 : ∀ (l : List (String × Entry)),
        (l.any fun p => p.1 == "_id" || p.1 == "_ids")
          = (l.map Prod.fst).any fun k => k == "_id" || k == "_ids" := by
      intro l
      induction l with
      | nil => rfl
      | cons p l ih => simp [ih]
    rw [h1, h1, hk]
  have hfold : l₁.foldl frozenStep ((⟨[], 0, []⟩ : Frozen), 0)
      = l₂.foldl frozenStep ((⟨[], 0, []⟩ : Frozen), 0) := by
    have hm : ∀ (l : List (String × Entry)),
        l.foldl frozenStep ((⟨[], 0, []⟩ : Frozen), 0)
          = (l.map fun p => (p.1, wrapEntry p.2)).foldl frozenStepW
              ((⟨[], 0, []⟩ : Frozen), 0) := by
      intro l
      rw [List.foldl_map]
      rfl
    rw [hm, hm, h]
  unfold frozenInit frozenInitInstr
  rw [hres, hfold]

/-- **C5 (amended).** Merging with a plain-dict right operand free of the
reserved keys `_id`/`_ids` returns a new Frozen Map whose entries are the
union with the operand overriding same-named keys, and the merge result is
literally a direct construction from the merged entry set (hence has the
identity of `Construct(merged)`). A map-like operand that carries `_id` —
in particular any `FrozenIdict` operand, whose dict form retains its
synthetic `_id`/`_ids` entries — instead raises the reserved-key error
(see the counterexample). -/
theorem merge_dict_override (e : List (String × Entry)) (d : List (String × PyVal))
    (hnr : hasReservedKey e = false) (hnd : (e.map Prod.fst).Nodup)
    (hnrd : ∀ p ∈ d, p.1 ≠ "_id" ∧ p.1 ≠ "_ids") (hndd : (d.map Prod.fst).Nodup) :
    ∃ fz m, frozenInit e = .ok fz ∧
      rshiftMerge fz (.dict d) = .ok m ∧
      rshiftMerge fz (.dict d)
        = frozenInit (dictUpdate e (d.map fun p => (p.1, Entry.raw p.2))) ∧
      ∀ k, dictGet k m.data
        = match dictGet k d with
          | some v => some (strictiVal v)
          | Option.none => dictGet k fz.data := by
  have hfz := frozenInit_ok_eq e hnr hnd
  have hkeysdR : ((d.map fun p => (p.1, Entry.raw p.2)).map Prod.fst) = d.map Prod.fst := by
    rw [List.map_map]
    rfl
  have hnrM : hasReservedKey (dictUpdate e (d.map fun p => (p.1, Entry.raw p.2))) = false := by
    rw [hasReservedKey_eq_false_iff]
    intro p hp
    have hk : p.1 ∈ (dictUpdate e (d.map fun p => (p.1, Entry.raw p.2))).map Prod.fst :=
      List.mem_map_of_mem Prod.fst hp
    rw [mem_keys_dictUpdate] at hk
    rcases hk with hk | hk
    · obtain ⟨q, hq, hq1⟩ := List.mem_map.mp hk
      have := (hasReservedKey_eq_false_iff e).mp hnr q hq
      exact ⟨hq1 ▸ this.1, hq1 ▸ this.2⟩
    · rw [hkeysdR] at hk
      obtain ⟨q, hq, hq1⟩ := List.mem_map.mp hk
      have := hnrd q hq
      exact ⟨hq1 ▸ this.1, hq1 ▸ this.2⟩
  have hndM : ((dictUpdate e (d.map fun p => (p.1, Entry.raw p.2))).map Prod.fst).Nodup :=
    nodup_keys_dictUpdate _ _ hnd
  have hm := frozenInit_ok_eq _ hnrM hndM
  have hcongr : rshiftMerge ⟨e.map (fun p => (p.1, wrapEntry p.2)), (e.map entryContrib).sum,
      e.map fun p => (p.1, (wrapEntry p.2).hoshId)⟩ (.dict d)
      = frozenInit (dictUpdate e (d.map fun p => (p.1, Entry.raw p.2))) := by
    show frozenInit (dictUpdate ((e.map fun p => (p.1, wrapEntry p.2)).map
        fun p => (p.1, Entry.ival p.2)) (d.map fun p => (p.1, Entry.raw p.2))) = _
    apply frozenInit_congr_wrap
    rw [map_snd_dictUpdate wrapEntry, map_snd_dictUpdate wrapEntry]
    congr 1
    rw [List.map_map, List.map_map]
    rfl
  refine ⟨⟨e.map (fun p => (p.1, wrapEntry p.2)), (e.map entryContrib).sum,
      e.map fun p => (p.1, (wrapEntry p.2).hoshId)⟩,
    ⟨(dictUpdate e (d.map fun p => (p.1, Entry.raw p.2))).map (fun p => (p.1, wrapEntry p.2)),
      ((dictUpdate e (d.map fun p => (p.1, Entry.raw p.2))).map entryContrib).sum,
      (dictUpdate e (d.map fun p => (p.1, Entry.raw p.2))).map
        fun p => (p.1, (wrapEntry p.2).hoshId)⟩,
    hfz, ?_, hcongr, ?_⟩
  · rw [hcongr]
    exact hm
  · intro k
    show dictGet k ((dictUpdate e (d.map fun p => (p.1, Entry.raw p.2))).map
        fun p => (p.1, wrapEntry p.2)) = _
    rw [dictGet_map_snd wrapEntry,
      dictGet_dictUpdate_of_nodup e _ k (by rw [hkeysdR]; exact hndd),
      dictGet_map_snd Entry.raw d k]
    cases hdk : dictGet k d with
    | none =>
      show (dictGet k e).map wrapEntry = dictGet k (e.map fun p => (p.1, wrapEntry p.2))
      rw [dictGet_map_snd wrapEntry]
    | some v => rfl

/-- Witness for C5's amended theorem: `{a: 1, b: 2} >> {b: 3}`. -/
theorem merge_dict_override_witness :
    ∃ fz m, frozenInit [("a", .raw (.nat 1)), ("b", .raw (.nat 2))] = .ok fz ∧
      rshiftMerge fz (.dict [("b", .nat 3)]) = .ok m ∧
      rshiftMerge fz (.dict [("b", .nat 3)])
        = frozenInit (dictUpdate [("a", .raw (.nat 1)), ("b", .raw (.nat 2))]
            ([("b", PyVal.nat 3)].map fun p => (p.1, Entry.raw p.2))) ∧
      ∀ k, dictGet k m.data
        = match dictGet k [("b", PyVal.nat 3)] with
          | some v => some (strictiVal v)
          | Option.none => dictGet k fz.data :=
  merge_dict_override [("a", .raw (.nat 1)), ("b", .raw (.nat 2))] [("b", .nat 3)]
    (by decide) (by decide) (by decide) (by decide)

/-- **C5 counterexample.** Merging a Frozen Map with another Frozen Map —
a map-like right operand — raises the reserved-key error instead of
returning the override union: the operand is converted to its `.data`
dict, which still carries its synthetic `"_id"`/`"_ids"` entries, and the
reconstruction rejects them. -/
theorem merge_frozen_operand_raises :
    (frozenInit [("a", .raw (.nat 1))]).bind
      (fun fz => (frozenInit [("b", .raw (.nat 2))]).bind
        (fun g => rshiftMerge fz (.fmap g))) = .error .reservedKey := by
  rfl

/-! ## Equality (`FrozenIdict.__eq__`) -/

/-- Right operand of `FrozenIdict.__eq__`: a plain dict of Python values,
or a non-map value. -/
inductive EqOperand where
  | dict (d : List (String × PyVal))
  | nonmap (v : PyVal)

/-- The evaluated non-`_id`/`_ids` contents of a frozen map
(`self.asdict` with `_id`/`_ids` deleted; the entries of the model are
strict, so `self.evaluate()` leaves them unchanged). -/
def Frozen.contents (fz : Frozen) : List (String × PyVal) :=
  fz.data.map fun p => (p.1, p.2.value)

/-- Python `==` between two plain dicts (`data == other`): same length and
every entry of the first matched by key in the second. -/
def pyDictEqTop (a b : List (String × PyVal)) : Bool :=
  a.length == b.length && a.all fun p =>
    match dictGet p.1 b with
    | some v => pyEq p.2 v
    | Option.none => false

/-- `FrozenIdict.__eq__` (`src/hoshmap/frozenidict.py`): for a dict operand
carrying `"_id"`, compare `self.id` with it; otherwise compare the key
lists (`list(self.keys())[:-2] != list(other.keys())`, an order-sensitive
list comparison), then evaluate and compare the contents dicts; a non-dict
operand raises `TypeError`. -/
def frozenEq (fz : Frozen) (other : EqOperand) : Except PyErr Bool :=
  match other with
  | .dict d =>
    match dictGet "_id" d with
    | some v => .ok (pyEq (.str fz.idStr) v)
    | Option.none =>
      if fz.data.map Prod.fst ≠ d.map Prod.fst then .ok false
      else .ok (pyDictEqTop fz.contents d)
  | .nonmap _ => .error .typeMismatch

theorem keys_contents (fz : Frozen) : fz.contents.map Prod.fst = fz.data.map Prod.fst := by
  unfold Frozen.contents
  rw [List.map_map]
  rfl

/-- **C8 (amended).** `M == D` for a plain dict `D` holds iff either `D`
carries an `"_id"` equal (as a Python value) to `M`'s id string — in which
case contents are not consulted at all — or `D` carries no `"_id"`, its key
sequence equals `M`'s entry key sequence in the same order, and every entry
of `D` matches the corresponding evaluated content of `M`. Comparing with a
non-map value raises the type-mismatch error. (The claim's unordered
"key-for-key" reading fails: see the counterexample, where equal contents
in a different key order compare unequal.) -/
theorem frozenEq_spec (fz : Frozen) (d : List (String × PyVal))
    (hndf : (fz.data.map Prod.fst).Nodup) :
    (frozenEq fz (.dict d) = .ok true ↔
      (∃ v, dictGet "_id" d = some v ∧ pyEq (.str fz.idStr) v = true) ∨
      (dictGet "_id" d = Option.none ∧ fz.data.map Prod.fst = d.map Prod.fst ∧
        ∀ k v, dictGet k d = some v →
          ∃ w, dictGet k fz.contents = some w ∧ pyEq w v = true)) ∧
    ∀ v, frozenEq fz (.nonmap v) = .error .typeMismatch := by
  refine ⟨?_, fun v => rfl⟩
  have hEq : frozenEq fz (.dict d)
      = match dictGet "_id" d with
        | some v => .ok (pyEq (.str fz.idStr) v)
        | Option.none =>
          if fz.data.map Prod.fst ≠ d.map Prod.fst then .ok false
          else .ok (pyDictEqTop fz.contents d) := rfl
  cases hid : dictGet "_id" d with
  | some v =>
    rw [hEq, hid]
    simp only [Except.ok.injEq, Option.some.injEq, reduceCtorEq, false_and, and_false,
      or_false]
    constructor
    · intro h
      exact ⟨v, rfl, h⟩
    · rintro ⟨w, hw, hpe⟩
      rw [← hw] at hpe
      exact hpe
  | none =>
    rw [hEq, hid]
    by_cases hkeys : fz.data.map Prod.fst = d.map Prod.fst
    · rw [if_neg (fun hc => hc hkeys)]
      simp only [Except.ok.injEq, reduceCtorEq, false_and, exists_false, false_or,
        true_and]
      constructor
      · intro h
        refine ⟨hkeys, ?_⟩
        intro k v hkv
        unfold pyDictEqTop at h
        rw [Bool.and_eq_true, List.all_eq_true] at h
        have hkmem : k ∈ fz.contents.map Prod.fst := by
          rw [keys_contents, hkeys]
          exact (dictGet_isSome_iff_mem_keys d k).mp (by simp [hkv])
        obtain ⟨w, hw⟩ := Option.isSome_iff_exists.mp
          ((dictGet_isSome_iff_mem_keys fz.contents k).mpr hkmem)
        refine ⟨w, hw, ?_⟩
        have hmem := mem_of_dictGet_eq_some fz.contents k w hw
        have hall := h.2 (k, w) hmem
        simp only at hall
        rw [hkv] at hall
        exact hall
      · rintro ⟨_, hpt⟩
        have hndc : (fz.contents.map Prod.fst).Nodup := by
          rw [keys_contents]; exact hndf
        have hlen : fz.contents.length = d.length := by
          have h1 : fz.contents.length = (fz.contents.map Prod.fst).length :=
            (List.length_map _ _).symm
          have h2 : d.length = (d.map Prod.fst).length := (List.length_map _ _).symm
          rw [h1, h2, keys_contents, hkeys]
        unfold pyDictEqTop
        rw [Bool.and_eq_true, List.all_eq_true]
        refine ⟨by simp [hlen], ?_⟩
        intro p hp
        have hkmem : p.1 ∈ d.map Prod.fst := by
          rw [← hkeys, ← keys_contents]
          exact List.mem_map_of_mem Prod.fst hp
        obtain ⟨v, hv⟩ := Option.isSome_iff_exists.mp
          ((dictGet_isSome_iff_mem_keys d p.1).mpr hkmem)
        obtain ⟨w, hw, hpe⟩ := hpt p.1 v hv
        have hwp : w = p.2 := by
          have h1 := dictGet_eq_some_of_mem fz.contents p.1 p.2 hndc hp
          rw [h1, Option.some.injEq] at hw
          exact hw.symm
        subst hwp
        simp only [hv]
        exact hpe
    · rw [if_pos hkeys]
      simp only [Except.ok.injEq, reduceCtorEq, false_and, exists_false, false_or,
        true_and]
      constructor
      · intro h
        exact absurd h (by simp)
      · rintro ⟨hk, _⟩
        exact absurd hk hkeys

/-- A concrete one-entry frozen map `{a: 1}`, used by the C8 witness. -/
def sampleFrozenA : Frozen :=
  ⟨[("a", strictiVal (.nat 1))], {(pickleId (.nat 1), "a")}, [("a", pickleId (.nat 1))]⟩

/-- Witness for C8's amended theorem at `{a: 1} == {a: 1}`. -/
theorem frozenEq_spec_witness :
    (frozenEq sampleFrozenA (.dict [("a", .nat 1)]) = .ok true ↔
      (∃ v, dictGet "_id" [("a", PyVal.nat 1)] = some v ∧
        pyEq (.str sampleFrozenA.idStr) v = true) ∨
      (dictGet "_id" [("a", PyVal.nat 1)] = Option.none ∧
        sampleFrozenA.data.map Prod.fst = [("a", PyVal.nat 1)].map Prod.fst ∧
        ∀ k v, dictGet k [("a", PyVal.nat 1)] = some v →
          ∃ w, dictGet k sampleFrozenA.contents = some w ∧ pyEq w v = true)) ∧
    ∀ v, frozenEq sampleFrozenA (.nonmap v) = .error .typeMismatch :=
  frozenEq_spec sampleFrozenA [("a", .nat 1)] (by decide)

/-- **C8 counterexample.** `M = Construct({a:1, b:2})` compared with the
plain dict `{b:2, a:1}`: the contents match exactly key-for-key (and the
dict carries no `_id`), yet `M == D` evaluates to `False`, because the code
compares the key lists in order before comparing contents. -/
theorem frozenEq_key_order_counterexample :
    (frozenInit [("a", .raw (.nat 1)), ("b", .raw (.nat 2))]).bind
        (fun fz => frozenEq fz (.dict [("b", .nat 2), ("a", .nat 1)])) = .ok false ∧
      (frozenInit [("a", .raw (.nat 1)), ("b", .raw (.nat 2))]).map
        (fun fz => pyDictEqTop fz.contents [("b", .nat 2), ("a", .nat 1)]) = .ok true ∧
      dictGet "_id" [("b", PyVal.nat 2), ("a", PyVal.nat 1)] = Option.none :=
  ⟨rfl, rfl, rfl⟩

/-! ## Constructor argument aliasing (`FrozenIdict.__init__` prologue) -/

/-- The `data = _dictionary or {}; data.update(kwargs)` prologue of
`FrozenIdict.__init__`: a non-empty (truthy) dictionary argument is ALIASED
by `data`, so the keyword entries are written into the caller\'s object; an
empty (falsy) dict argument is replaced by a fresh `{}` and left untouched.
Returns the state of the caller\'s dictionary object after the prologue
(first component) and the `data` mapping used for construction (second). -/
def initPrologue (dictionary kwargs : List (String × PyVal)) :
    (List (String × PyVal)) × (List (String × PyVal)) :=
  if dictionary.isEmpty then (dictionary, dictUpdate [] kwargs)
  else (dictUpdate dictionary kwargs, dictUpdate dictionary kwargs)

/-- **C9 (amended).** When the constructor is given a NON-EMPTY dictionary
argument and keyword entries, the caller\'s dictionary object is mutated:
after construction it holds `d.update(kwargs)`, and in particular every
keyword pair is found in it. (An empty dictionary argument escapes the
aliasing through the falsy `_dictionary or {}` idiom — see the
counterexample.) -/
theorem init_mutates_nonempty_dict_arg (d kwargs : List (String × PyVal))
    (hne : d ≠ []) (hnd : (kwargs.map Prod.fst).Nodup) :
    (initPrologue d kwargs).1 = dictUpdate d kwargs ∧
      ∀ p ∈ kwargs, dictGet p.1 (initPrologue d kwargs).1 = some p.2 := by
  have hemp : d.isEmpty = false := by
    cases d with
    | nil => exact absurd rfl hne
    | cons p t => rfl
  constructor
  · unfold initPrologue
    rw [hemp]
    rfl
  · intro p hp
    unfold initPrologue
    rw [hemp]
    show dictGet p.1 (dictUpdate d kwargs) = some p.2
    rw [dictGet_dictUpdate_of_nodup d kwargs p.1 hnd,
      dictGet_eq_some_of_mem kwargs p.1 p.2 hnd hp]

/-- Witness for C9\'s amended theorem: `FrozenIdict({"a": 1}, x=2)`. -/
theorem init_mutates_nonempty_dict_arg_witness :
    (initPrologue [("a", PyVal.nat 1)] [("x", PyVal.nat 2)]).1
        = dictUpdate [("a", PyVal.nat 1)] [("x", PyVal.nat 2)] ∧
      ∀ p ∈ [("x", PyVal.nat 2)],
        dictGet p.1 (initPrologue [("a", PyVal.nat 1)] [("x", PyVal.nat 2)]).1 = some p.2 :=
  init_mutates_nonempty_dict_arg [("a", PyVal.nat 1)] [("x", PyVal.nat 2)]
    (List.cons_ne_nil _ _) (by decide)

/-- **C9 counterexample.** `FrozenIdict({}, x=1)`: the dictionary argument
is given (an empty dict) together with a keyword entry, yet the caller\'s
dict is NOT mutated — `_dictionary or {}` discards the falsy empty dict, so
the keyword pair is never inserted into the passed-in object. -/
theorem init_empty_dict_arg_not_mutated :
    (initPrologue [] [("x", PyVal.nat 1)]).1 = [] ∧
      dictGet "x" (initPrologue [] [("x", PyVal.nat 1)]).1 = Option.none :=
  ⟨rfl, rfl⟩

/-! ## The lazy value engine (`src/hoshmap/value/lazyival.py`) -/

/-- A cache tier: an external mapping from identity string to content. -/
abbrev Tier := List (String × PyVal)

/-- One sibling output node of a shared computation: declared output index
`self.i`, declared output count `self.n`, and its identity string
(`self.id = self.hosh.id`, the slice `hosh[i:n]` of the combined dependency
and function identities being opaque here). -/
structure LazyNode where
  i : Nat
  n : Nat
  id : String

/-- The mutable environment shared by the sibling `LazyiVal`s of one
function call: the shared results mapping (`self.results`, identity →
content, with `None` as the unset sentinel placed by `__init__`), the
attached cache tiers (`self.caches`; `Option.none` models `caches=None`),
and how many times the underlying function has been invoked
(instrumentation for the at-most-once property). -/
structure LVState where
  results : List (String × PyVal)
  caches : Option (List Tier)
  calls : Nat

/-- `iVal.isevaluated`. Modelled from the spec: the hoshmap `ival.py` base
class is not under `src/`; the spec states "`isevaluated` =
shared_results[own id] is set", and `LazyiVal.__init__` initialises the
slot with `None` (`self.results[self.id] = None`), so "set" means present
and different from `None`. -/
def isevaluated (id : String) (results : List (String × PyVal)) : Bool :=
  match dictGet id results with
  | some PyVal.none => false
  | some _ => true
  | Option.none => false

/-- The normalization steps of `LazyiVal.value`: `if self.n == 1` wrap the
scalar; `elif isinstance(result, dict)` take `.values()`; `elif
isinstance(result, list) and len(result) != self.n` raise the arity error;
finally `if not isinstance(result, Iterable)` raise the unsupported error.
Any other iterable (a tuple, a str over its characters) passes through
without a length check. -/
def normalizeResult (n : Nat) (r : PyVal) : Except PyErr (List PyVal) :=
  if n == 1 then .ok [r]
  else
    match r with
    | .dict d => .ok d.values
    | .list l => if l.toList.length ≠ n then .error .arity else .ok l.toList
    | .tuple t => .ok t.toList
    | .str s => .ok (s.data.map fun c => .str (String.mk [c]))
    | _ => .error .unsupported

/-- `for id, res in zip(self.results, result): self.results[id] = res` —
iterating a Python dict yields its keys in insertion order, and `zip`
stops at the shorter sequence. -/
def zipAssign (rs : List (String × PyVal)) (outs : List PyVal) : List (String × PyVal) :=
  ((rs.map Prod.fst).zip outs).foldl (fun acc q => dictSet acc q.1 q.2) rs

/-- The fetch loop of `LazyiVal.value`: scan the tiers in order, collecting
the "outdated" tiers already passed; on the first tier containing the
identity, read the content, write it into every outdated tier, and return
it with the updated tier list; `Option.none` on a full miss (tiers are
left unchanged). -/
def cacheScan (hid : String) : List Tier → Option (PyVal × List Tier)
  | [] => Option.none
  | t :: rest =>
    match dictGet hid t with
    | some v => some (v, t :: rest)
    | Option.none =>
      match cacheScan hid rest with
      | some (v, rest') => some (v, dictSet t hid v :: rest')
      | Option.none => Option.none

/-- The store loop of `LazyiVal.value`:
`for id, res in self.results.items(): for cache in self.caches:
cache[id] = res`. (The nested-`Idict` re-dispatch for map-valued results is
outside the model: results here are plain values.) -/
def storeAll (rs : List (String × PyVal)) (tiers : List Tier) : List Tier :=
  rs.foldl (fun ts q => ts.map fun t => dictSet t q.1 q.2) tiers

/-- The Calculate/Store section of `LazyiVal.value`: resolve the
dependencies (here already strict contents, so `ival.value` is immediate),
invoke the function once, normalize, zip-assign into the shared results,
store everything into every cache tier, and return
`self.results[self.id]`. A raised error discards the post-state. -/
def lazyCompute (f : List (String × PyVal) → PyVal) (nd : LazyNode)
    (deps : List (String × PyVal)) (st : LVState) : Except PyErr (PyVal × LVState) :=
  let r := f deps
  match normalizeResult nd.n r with
  | .error e => .error e
  | .ok outs =>
    let rs := zipAssign st.results outs
    let caches := st.caches.map (storeAll rs)
    match dictGet nd.id rs with
    | some v => .ok (v, ⟨rs, caches, st.calls + 1⟩)
    | Option.none => .error .keyError

/-- `LazyiVal.value` (hoshmap variant), for dependencies already resolved
to strict contents (`deps` holds each dependency's `.value`); the
`isinstance(field, int)` positional branch and the `":*"`
exploded-iterable branch are not exercised here, fields being plain
keyword names. Returns the content and the updated shared environment. -/
def lazyValue (f : List (String × PyVal) → PyVal) (nd : LazyNode)
    (deps : List (String × PyVal)) (st : LVState) : Except PyErr (PyVal × LVState) :=
  if isevaluated nd.id st.results then
    match dictGet nd.id st.results with
    | some v => .ok (v, st)
    | Option.none => .error .keyError
  else
    match st.caches with
    | some tiers =>
      match cacheScan nd.id tiers with
      | some (v, tiers') =>
          .ok (v, { st with results := dictSet st.results nd.id v, caches := some tiers' })
      | Option.none => lazyCompute f nd deps st
    | Option.none => lazyCompute f nd deps st

/-- `LazyiVal.__init__` registration, for the siblings of one shared
computation in construction order: each executes
`self.results[self.id] = None` on the shared mapping. -/
def initResults (ids : List String) : List (String × PyVal) :=
  ids.foldl (fun acc id => dictSet acc id PyVal.none) []

/-- **C2 (bug exhibit).** A `LazyiVal` whose function returns `None`
(declared `n = 1`, no caches) is re-invoked by every `.value` call: the
zip-assignment stores `None` back into the shared slot, so `isevaluated`
(which reads "slot is set" as "slot is not `None`") stays false and the
memoization never engages. After two `.value` calls the function has been
invoked twice, contradicting the at-most-once claim and the class's own
docstring ("It is calculated only when needed, only once and it is
cached"). -/
theorem lazy_none_result_recomputed :
    (lazyValue (fun _ => PyVal.none) ⟨0, 1, "a"⟩ []
        ⟨[("a", PyVal.none)], Option.none, 0⟩).bind
        (fun r => lazyValue (fun _ => PyVal.none) ⟨0, 1, "a"⟩ [] r.2)
      = .ok (PyVal.none, ⟨[("a", PyVal.none)], Option.none, 2⟩) := rfl

/-- **C3.** An unevaluated lazy value with cache tiers `[A, B]`, where `B`
contains the node's identity and `A` does not: `.value` returns the
content found in `B`, promotes the same identity→content pair into the
outdated tier `A`, stores it into the shared result slot, and never
invokes the underlying function (the invocation count is unchanged). -/
theorem cache_promotion (f : List (String × PyVal) → PyVal) (nd : LazyNode)
    (deps : List (String × PyVal)) (rs : List (String × PyVal))
    (A B : Tier) (c : Nat) (v : PyVal)
    (hslot : dictGet nd.id rs = some PyVal.none)
    (hA : dictGet nd.id A = Option.none) (hB : dictGet nd.id B = some v) :
    lazyValue f nd deps ⟨rs, some [A, B], c⟩
        = .ok (v, ⟨dictSet rs nd.id v, some [dictSet A nd.id v, B], c⟩) ∧
      dictGet nd.id (dictSet A nd.id v) = some v ∧
      dictGet nd.id (dictSet rs nd.id v) = some v := by
  have hev : isevaluated nd.id rs = false := by
    unfold isevaluated
    rw [hslot]
  have hscan : cacheScan nd.id [A, B] = some (v, [dictSet A nd.id v, B]) := by
    unfold cacheScan
    rw [hA]
    unfold cacheScan
    rw [hB]
  refine ⟨?_, dictGet_dictSet_self A nd.id v, dictGet_dictSet_self rs nd.id v⟩
  unfold lazyValue
  rw [hev]
  simp only [Bool.false_eq_true, if_false, hscan]

/-- Witness for C3: the result `5` for identity `"x"` sits only in tier
`B`; reading promotes it into `A` without invoking the function. -/
theorem cache_promotion_witness :
    lazyValue (fun _ => PyVal.nat 0) ⟨0, 1, "x"⟩ []
        ⟨[("x", PyVal.none)], some [[], [("x", PyVal.nat 5)]], 0⟩
        = .ok (PyVal.nat 5, ⟨dictSet [("x", PyVal.none)] "x" (PyVal.nat 5),
            some [dictSet [] "x" (PyVal.nat 5), [("x", PyVal.nat 5)]], 0⟩) ∧
      dictGet "x" (dictSet [] "x" (PyVal.nat 5)) = some (PyVal.nat 5) ∧
      dictGet "x" (dictSet [("x", PyVal.none)] "x" (PyVal.nat 5)) = some (PyVal.nat 5) :=
  cache_promotion (fun _ => PyVal.nat 0) ⟨0, 1, "x"⟩ [] [("x", PyVal.none)]
    [] [("x", PyVal.nat 5)] 0 (PyVal.nat 5) rfl rfl rfl

/-- **C7 (amended).** For an unevaluated multi-output lazy value
(`n ≠ 1`, no caches) whose function returns a LIST of length different
from `n`, the first `.value` call raises the fatal arity error. Other
sequence shapes are NOT length-checked — a wrong-length tuple is silently
zipped (see the counterexample). -/
theorem wrong_length_list_raises_arity (f : List (String × PyVal) → PyVal)
    (nd : LazyNode) (deps : List (String × PyVal)) (st : LVState) (l : PyList)
    (hslot : dictGet nd.id st.results = some PyVal.none)
    (hnc : st.caches = Option.none) (hn : nd.n ≠ 1)
    (hf : f deps = PyVal.list l) (hlen : l.toList.length ≠ nd.n) :
    lazyValue f nd deps st = .error .arity := by
  have hev : isevaluated nd.id st.results = false := by
    unfold isevaluated
    rw [hslot]
  have hnorm : normalizeResult nd.n (f deps) = .error .arity := by
    unfold normalizeResult
    rw [if_neg (by simpa using hn), hf]
    show (if l.toList.length ≠ nd.n then Except.error PyErr.arity else Except.ok l.toList) = _
    rw [if_pos hlen]
  unfold lazyValue
  rw [hev]
  simp only [Bool.false_eq_true, if_false, hnc]
  unfold lazyCompute
  simp only [hnorm]

/-- Witness for C7's amended theorem: `n = 2`, the function returns the
length-3 list `[1, 2, 3]`. -/
theorem wrong_length_list_raises_arity_witness :
    lazyValue (fun _ => PyVal.list (.cons (.nat 1) (.cons (.nat 2) (.cons (.nat 3) .nil))))
        ⟨0, 2, "a"⟩ [] ⟨[("a", PyVal.none), ("b", PyVal.none)], Option.none, 0⟩
      = .error .arity :=
  wrong_length_list_raises_arity _ ⟨0, 2, "a"⟩ []
    ⟨[("a", PyVal.none), ("b", PyVal.none)], Option.none, 0⟩
    (.cons (.nat 1) (.cons (.nat 2) (.cons (.nat 3) .nil))) rfl rfl (by decide) rfl
    (by decide)

/-- **C7 counterexample.** A function with declared output count `n = 2`
returning the length-1 TUPLE `(7,)` — a sequence whose length disagrees
with `n` — does not raise on the first `.value` call: tuples bypass the
list-only length check, the short tuple is zipped against the two sibling
slots, the first sibling silently receives `7` and the second stays
unset. -/
theorem tuple_wrong_length_not_raised :
    lazyValue (fun _ => PyVal.tuple (.cons (.nat 7) .nil)) ⟨0, 2, "a"⟩ []
        ⟨[("a", PyVal.none), ("b", PyVal.none)], Option.none, 0⟩
      = .ok (.nat 7, ⟨[("a", PyVal.nat 7), ("b", PyVal.none)], Option.none, 1⟩) := rfl

theorem foldl_dictSet_cons_ne (a : String × α) (l : List (String × α))
    (qs : List (String × α)) (h : ∀ q ∈ qs, q.1 ≠ a.1) :
    qs.foldl (fun acc q => dictSet acc q.1 q.2) (a :: l)
      = a :: qs.foldl (fun acc q => dictSet acc q.1 q.2) l := by
  induction qs generalizing l with
  | nil => rfl
  | cons q qs ih =>
    simp only [List.foldl_cons]
    have hq : a.1 ≠ q.1 := fun he => (h q (by simp)) he.symm
    rw [dictSet_cons, if_neg hq]
    exact ih (dictSet l q.1 q.2) (fun q' hq' => h q' (by simp [hq']))

theorem zipAssign_nil_right (rs : List (String × PyVal)) : zipAssign rs [] = rs := by
  unfold zipAssign
  rw [List.zip_nil_right]
  rfl

theorem zipAssign_cons (r : String × PyVal) (rs : List (String × PyVal))
    (o : PyVal) (outs : List PyVal) (h : r.1 ∉ rs.map Prod.fst) :
    zipAssign (r :: rs) (o :: outs) = (r.1, o) :: zipAssign rs outs := by
  unfold zipAssign
  simp only [List.map_cons, List.zip_cons_cons, List.foldl_cons]
  rw [dictSet_cons, if_pos rfl]
  apply foldl_dictSet_cons_ne
  intro q hq
  have hq1 := (List.of_mem_zip hq).1
  exact fun he => h (he ▸ hq1)

theorem keys_foldl_dictSet_of_mem (qs acc : List (String × α))
    (h : ∀ q ∈ qs, q.1 ∈ acc.map Prod.fst) :
    (qs.foldl (fun acc q => dictSet acc q.1 q.2) acc).map Prod.fst = acc.map Prod.fst := by
  induction qs generalizing acc with
  | nil => rfl
  | cons q qs ih =>
    simp only [List.foldl_cons]
    rw [ih (dictSet acc q.1 q.2) ?_, keys_dictSet_of_mem acc q.1 q.2 (h q (by simp))]
    intro q' hq'
    rw [keys_dictSet_of_mem acc q.1 q.2 (h q (by simp))]
    exact h q' (by simp [hq'])

theorem keys_zipAssign (rs : List (String × PyVal)) (outs : List PyVal) :
    (zipAssign rs outs).map Prod.fst = rs.map Prod.fst := by
  unfold zipAssign
  apply keys_foldl_dictSet_of_mem
  intro q hq
  exact (List.of_mem_zip hq).1

theorem keys_map_pair_none (ids : List String) :
    (ids.map fun id => (id, PyVal.none)).map Prod.fst = ids := by
  rw [List.map_map]
  exact List.map_id ids

theorem dictGet_zipAssign_ids (ids : List String) : ∀ (outs : List PyVal), ids.Nodup →
    ∀ (k : Nat) (hk : k < ids.length) (hko : k < outs.length),
    dictGet (ids.get ⟨k, hk⟩) (zipAssign (ids.map fun id => (id, PyVal.none)) outs)
      = some (outs.get ⟨k, hko⟩) := by
  induction ids with
  | nil =>
    intro outs _ k hk
    exact absurd hk (by simp)
  | cons id ids ih =>
    intro outs hnd k hk hko
    rcases List.nodup_cons.mp hnd with ⟨hid, hnd2⟩
    cases outs with
    | nil => exact absurd hko (by simp)
    | cons o outs =>
      rw [List.map_cons, zipAssign_cons (id, PyVal.none) _ o outs (by
        rw [keys_map_pair_none]
        exact hid)]
      cases k with
      | zero => simp
      | succ k =>
        have hkm : k < ids.length := by simpa using hk
        have hkey : ids.get ⟨k, hkm⟩ ≠ id := by
          intro he
          apply hid
          rw [← he]
          exact ids.get_mem k hkm
        show dictGet ((id :: ids).get ⟨k + 1, hk⟩) _ = _
        rw [List.get_cons_succ]
        rw [dictGet_cons, if_neg (fun h2 => hkey h2.symm)]
        exact ih outs hnd2 k hkm (by simpa using hko)

/-- **C10.** Each sibling of a multi-output computation registers its
identity in the shared results mapping at construction time (slot `None`),
and evaluation binds the normalized outputs to sibling identities by
zipping in the mapping\'s key-insertion order — the order the siblings were
constructed — not by each node\'s declared output index: the `k`-th element
of the function\'s normalized result is stored under the `k`-th constructed
sibling\'s identity, whatever `i` the evaluating node declares. -/
theorem outputs_bound_by_construction_order
    (f : List (String × PyVal) → PyVal) (deps : List (String × PyVal))
    (ids : List String) (nd : LazyNode) (outs : List PyVal)
    (hnd : ids.Nodup) (hmem : nd.id ∈ ids)
    (hnorm : normalizeResult nd.n (f deps) = .ok outs) :
    dictGet nd.id (initResults ids) = some PyVal.none ∧
    ∃ v, lazyValue f nd deps ⟨initResults ids, Option.none, 0⟩
        = .ok (v, ⟨zipAssign (initResults ids) outs, Option.none, 1⟩) ∧
      ∀ k, (hk : k < ids.length) → (hko : k < outs.length) →
        dictGet (ids.get ⟨k, hk⟩) (zipAssign (initResults ids) outs)
          = some (outs.get ⟨k, hko⟩) := by
  have hinit : initResults ids = ids.map fun id => (id, PyVal.none) := by
    have h1 : initResults ids
        = (ids.map fun id => (id, PyVal.none)).foldl (fun acc q => dictSet acc q.1 q.2) [] := by
      unfold initResults
      rw [List.foldl_map]
    rw [h1, foldl_dictSet_eq_append _ [] (by rw [keys_map_pair_none]; exact hnd) (by simp)]
    rfl
  have hslot : dictGet nd.id (initResults ids) = some PyVal.none := by
    rw [hinit]
    exact dictGet_eq_some_of_mem _ nd.id PyVal.none
      (by rw [keys_map_pair_none]; exact hnd) (List.mem_map_of_mem _ hmem)
  refine ⟨hslot, ?_⟩
  have hev : isevaluated nd.id (initResults ids) = false := by
    unfold isevaluated
    rw [hslot]
  have hsome : (dictGet nd.id (zipAssign (initResults ids) outs)).isSome = true := by
    rw [dictGet_isSome_iff_mem_keys, keys_zipAssign, hinit, keys_map_pair_none]
    exact hmem
  obtain ⟨v, hv⟩ := Option.isSome_iff_exists.mp hsome
  refine ⟨v, ?_, ?_⟩
  · unfold lazyValue
    rw [hev]
    simp only [Bool.false_eq_true, if_false]
    unfold lazyCompute
    simp only [hnorm, hv]
    rfl
  · intro k hk hko
    rw [hinit]
    exact dictGet_zipAssign_ids ids outs hnd k hk hko

/-- Witness for C10: siblings constructed in the order `["b", "a"]` (the
node for declared index 1 first); the function returns `[10, 20]`, and
`10` is bound to `"b"` — the first constructed sibling — while `20` goes
to `"a"`. -/
theorem outputs_bound_by_construction_order_witness :
    dictGet "b" (initResults ["b", "a"]) = some PyVal.none ∧
    ∃ v, lazyValue (fun _ => PyVal.list (.cons (.nat 10) (.cons (.nat 20) .nil)))
          ⟨1, 2, "b"⟩ [] ⟨initResults ["b", "a"], Option.none, 0⟩
        = .ok (v, ⟨zipAssign (initResults ["b", "a"]) [PyVal.nat 10, PyVal.nat 20],
            Option.none, 1⟩) ∧
      ∀ k, (hk : k < (["b", "a"] : List String).length) →
        (hko : k < ([PyVal.nat 10, PyVal.nat 20] : List PyVal).length) →
        dictGet ((["b", "a"] : List String).get ⟨k, hk⟩)
            (zipAssign (initResults ["b", "a"]) [PyVal.nat 10, PyVal.nat 20])
          = some (([PyVal.nat 10, PyVal.nat 20] : List PyVal).get ⟨k, hko⟩) :=
  outputs_bound_by_construction_order
    (fun _ => PyVal.list (.cons (.nat 10) (.cons (.nat 20) .nil))) []
    ["b", "a"] ⟨1, 2, "b"⟩ [PyVal.nat 10, PyVal.nat 20]
    (by decide) (by decide) rfl

end Cdict
